import Mathlib

/-!
Shallow embedding of `text_blur.py` (tgreaves/text-blur-tool).

The tool locates target phrases in an image via an external OCR engine and
blurs the matched regions.  External collaborators (the OCR engine, the
image-processing primitives, file reading) are modelled as function
parameters; everything else is translated directly from the source.

Strings are modelled as lists of characters; pixel coordinates and box
dimensions are naturals (the OCR engine reports non-negative integers);
confidences are integers (the engine reports -1 for non-word records).
-/

namespace TextBlur

/-- Python str.lower, per character. -/
def lowerStr (w : List Char) : List Char := w.map Char.toLower

/-- Python s.replace with the space character mapped to the empty string
(text_blur.py line 119). -/
def stripSpaces (w : List Char) : List Char := w.filter (fun c => c ≠ ' ')

/-- Does the second list start with the first one? -/
def listStartsWith : List Char → List Char → Bool
  | [], _ => true
  | _ :: _, [] => false
  | a :: as, b :: bs => a == b && listStartsWith as bs

/-- Python substring test: needle in haystack (true for the empty needle). -/
def containsSub (needle : List Char) : List Char → Bool
  | [] => listStartsWith needle []
  | c :: rest => listStartsWith needle (c :: rest) || containsSub needle rest

/-- Python list slice l[a:b] for non-negative clamped bounds: the code only
slices with a = max(0, i-j) and b = i+j+1, both rendered here in ℕ. -/
def pySlice {α : Type _} (l : List α) (a b : ℕ) : List α := (l.drop a).take (b - a)

/-- Matching rule (d) of the aggregator (text_blur.py lines 120-121):
any(text_lower in join-of-window.lower() for j in range(3)), where the
window is data.text sliced from max(0, i-j) to i+j+1. -/
def slidingWindowMatch (textLower : List Char) (words : List (List Char)) (i : ℕ) : Bool :=
  (List.range 3).any fun j =>
    containsSub textLower (lowerStr (List.intercalate [' '] (pySlice words (i - j) (i + j + 1))))

/-- Modelled from the spec: rule (d) as the specification states it, with
window sizes 0 through 3 inclusive (up to 3 neighboring words on each side).
Used only to compare the specification text with the code, which tries
window sizes 0 through 2. -/
def slidingWindowMatchSpec (textLower : List Char) (words : List (List Char)) (i : ℕ) : Bool :=
  (List.range 4).any fun j =>
    containsSub textLower (lowerStr (List.intercalate [' '] (pySlice words (i - j) (i + j + 1))))

/-- The full match test of text_blur.py lines 112-121: case-insensitive
substring in either direction, space-stripped substring, or the sliding
window rule. -/
def hitMatches (text word : List Char) (words : List (List Char)) (i : ℕ) : Bool :=
  let wordLower := lowerStr word
  let textLower := lowerStr text
  containsSub textLower wordLower || containsSub wordLower textLower ||
    containsSub (stripSpaces textLower) (stripSpaces wordLower) ||
    slidingWindowMatch textLower words i

/-- One record of pytesseract image_to_data output: recognized token,
confidence, and bounding box (left, top, width, height). -/
structure RawWordHit where
  word : List Char
  conf : ℤ
  left : ℕ
  top : ℕ
  width : ℕ
  height : ℕ
  deriving DecidableEq

/-- A bounding box (x, y, width, height). -/
structure Box where
  x : ℕ
  y : ℕ
  w : ℕ
  h : ℕ
  deriving DecidableEq

/-- Padding and clipping of a raw hit box (text_blur.py lines 128-134):
pad = int(h * 0.5), which is ⌊h/2⌋ for the non-negative heights the engine
reports; Python max(0, x - pad) is truncated ℕ subtraction here. -/
def padBox (b : Box) : Box :=
  let pad := b.h / 2
  ⟨b.x - pad, b.y - pad, b.w + 2 * pad, b.h + 2 * pad⟩

/-- The body of the per-word loop of detect_text_regions (lines 104-137):
skip whitespace-only tokens (Python: not word.strip()), skip low-confidence
tokens, and on a match append the padded box unless already recorded. -/
def stepHit (text : List Char) (words : List (List Char)) (minConf : ℤ)
    (acc : List Box) (iw : ℕ × RawWordHit) : List Box :=
  if iw.2.word.all Char.isWhitespace then acc
  else if iw.2.conf < minConf then acc
  else if hitMatches text iw.2.word words iw.1 then
    let box := padBox ⟨iw.2.left, iw.2.top, iw.2.width, iw.2.height⟩
    if box ∈ acc then acc else acc ++ [box]
  else acc

/-- Processing of one OCR invocation result for one phrase: the enumerate
loop over the parallel data arrays of image_to_data. -/
def processInvocation (text : List Char) (minConf : ℤ) (hits : List RawWordHit)
    (acc : List Box) : List Box :=
  (hits.enum).foldl (stepHit text (hits.map RawWordHit.word) minConf) acc

/-- The four fixed OCR configurations (text_blur.py lines 84-89). -/
def configs : List String :=
  ["--oem 3 --psm 6", "--oem 3 --psm 3", "--oem 3 --psm 11", "--oem 3 --psm 1"]

/-- The body of the config loop (lines 99-141): invoke the engine once and,
unless it raised (modelled as none, the except branch of lines 139-141),
process the hits.  The state is the accumulated per-phrase box list paired
with the trace of engine invocations made so far. -/
def sweepConfigStep {Img : Type _} (ocr : Img → String → Option (List RawWordHit))
    (text : List Char) (minConf : ℤ) (img : Img)
    (st : List Box × List (Img × String)) (config : String) :
    List Box × List (Img × String) :=
  match ocr img config with
  | none => (st.1, st.2 ++ [(img, config)])
  | some hits => (processInvocation text minConf hits st.1, st.2 ++ [(img, config)])

/-- The body of the preprocessed-image loop (line 98). -/
def sweepVariantStep {Img : Type _} (ocr : Img → String → Option (List RawWordHit))
    (text : List Char) (minConf : ℤ)
    (st : List Box × List (Img × String)) (img : Img) :
    List Box × List (Img × String) :=
  configs.foldl (sweepConfigStep ocr text minConf img) st

/-- One iteration of the phrase loop (lines 95-141): text_boxes starts empty
for each phrase while the invocation trace continues to grow. -/
def sweepPhrase {Img : Type _} (ocr : Img → String → Option (List RawWordHit))
    (variants : List Img) (text : List Char) (minConf : ℤ)
    (trace : List (Img × String)) : List Box × List (Img × String) :=
  variants.foldl (sweepVariantStep ocr text minConf) ([], trace)

/-- The body of the phrase loop at the results level (lines 95-144): run
the sweep for one phrase and record (phrase, boxes) when boxes is
non-empty (line 143). -/
def detectStep {Img : Type _} (ocr : Img → String → Option (List RawWordHit))
    (variants : List Img) (minConf : ℤ)
    (st : List (List Char × List Box) × List (Img × String)) (text : List Char) :
    List (List Char × List Box) × List (Img × String) :=
  let r := sweepPhrase ocr variants text minConf st.2
  (if r.1 = [] then st.1 else st.1 ++ [(text, r.1)], r.2)

/-- detect_text_regions (lines 67-146) instrumented with the trace of all
OCR engine invocations. -/
def detectT {Img : Type _} (ocr : Img → String → Option (List RawWordHit))
    (variants : List Img) (textToFind : List (List Char)) (minConf : ℤ) :
    List (List Char × List Box) × List (Img × String) :=
  textToFind.foldl (detectStep ocr variants minConf) ([], [])

/-- detect_text_regions: the phrase-to-boxes result of the sweep. -/
def detect_text_regions {Img : Type _} (ocr : Img → String → Option (List RawWordHit))
    (variants : List Img) (textToFind : List (List Char)) (minConf : ℤ) :
    List (List Char × List Box) :=
  (detectT ocr variants textToFind minConf).1

/-- The sequence of OCR engine invocations performed by one detection run. -/
def ocrInvocations {Img : Type _} (ocr : Img → String → Option (List RawWordHit))
    (variants : List Img) (textToFind : List (List Char)) (minConf : ℤ) :
    List (Img × String) :=
  (detectT ocr variants textToFind minConf).2

/-- The external image-processing primitives used by preprocess_image
(grayscale, CLAHE, Otsu threshold, adaptive threshold, sharpening kernel,
non-local-means denoising). -/
structure ImageOps (Img : Type _) where
  grayscale : Img → Img
  clahe : Img → Img
  otsuThreshold : Img → Img
  adaptiveThreshold : Img → Img
  sharpen : Img → Img
  denoise : Img → Img

/-- preprocess_image (lines 18-65): the original image and its grayscale,
plus five further grayscale-derived variants in aggressive/all mode.  Any
other mode string yields just the first two variants. -/
def preprocess_image {Img : Type _} (ops : ImageOps Img) (image : Img) (mode : String) :
    List Img :=
  let gray := ops.grayscale image
  let images := [image, gray]
  if mode = "aggressive" || mode = "all" then
    images ++ [ops.clahe gray, ops.otsuThreshold gray, ops.adaptiveThreshold gray,
      ops.sharpen gray, ops.denoise gray]
  else images

/-- An in-memory raster: shape (rows, cols) with a pixel lookup.  The
channel axis of the BGR raster is folded into the pixel value. -/
structure Raster where
  rows : ℕ
  cols : ℕ
  pix : ℕ → ℕ → ℕ

/-- The per-box body of apply_blur (lines 164-174): clip the bottom/right
edges to the shape of apply_blur's input image (rows, cols), and when the
clipped region is non-degenerate and non-empty replace its pixels with the
externally blurred sub-region. -/
def blurRegion (gaussianBlur : ℤ → Raster → Raster) (blurStrength : ℤ)
    (rows cols : ℕ) (output : Raster) (b : Box) : Raster :=
  let yEnd := min (b.y + b.h) rows
  let xEnd := min (b.x + b.w) cols
  if b.y < yEnd ∧ b.x < xEnd then
    let region : Raster := ⟨yEnd - b.y, xEnd - b.x, fun r c => output.pix (b.y + r) (b.x + c)⟩
    if (yEnd - b.y) * (xEnd - b.x) ≠ 0 then
      let blurred := gaussianBlur blurStrength region
      { output with pix := fun r c =>
          if b.y ≤ r ∧ r < yEnd ∧ b.x ≤ c ∧ c < xEnd then blurred.pix (r - b.y) (c - b.x)
          else output.pix r c }
    else output
  else output

/-- apply_blur (lines 148-176): start from a copy of the input image and
blur every box of every phrase in sequence. -/
def apply_blur (gaussianBlur : ℤ → Raster → Raster) (image : Raster)
    (regions : List (List Char × List Box)) (blurStrength : ℤ) : Raster :=
  regions.foldl
    (fun output tb => tb.2.foldl (blurRegion gaussianBlur blurStrength image.rows image.cols) output)
    image

/-- The pixel rectangle written by blurRegion for a box, relative to the
clip shape (rows, cols). -/
def inBlurRect (rows cols : ℕ) (b : Box) (r c : ℕ) : Prop :=
  b.y ≤ r ∧ r < min (b.y + b.h) rows ∧ b.x ≤ c ∧ c < min (b.x + b.w) cols

instance (rows cols : ℕ) (b : Box) (r c : ℕ) : Decidable (inBlurRect rows cols b r c) := by
  unfold inBlurRect
  infer_instance

/-- The blur-strength validation of blur_text_in_image (lines 196-197):
an even value is silently incremented. -/
def normalizeBlurStrength (blurStrength : ℤ) : ℤ :=
  if blurStrength % 2 = 0 then blurStrength + 1 else blurStrength

/-- Modelled from the spec: os.path.splitext is standard-library path
handling outside src/; per the spec's derived path name-plus-extension
split, modelled as splitting at the last dot (extension includes the dot,
absent dot gives an empty extension). -/
def splitextList (s : List Char) : List Char × List Char :=
  let rev := s.reverse
  let spanned := rev.span (fun c => c ≠ '.')
  match spanned.2 with
  | [] => (s, [])
  | _ :: rest => (rest.reverse, '.' :: spanned.1.reverse)

/-- The default output path of blur_text_in_image (lines 200-202). -/
def defaultOutputPath (imagePath : List Char) : List Char :=
  let se := splitextList imagePath
  se.1 ++ ("_blurred".toList) ++ se.2

/-- Outcome of one pipeline run: the returned output path, and the file
write performed, if any (path written to, image written). -/
structure PipelineResult where
  outputPath : List Char
  written : Option (List Char × Raster)

/-- blur_text_in_image (lines 178-232).  File reading is the imread
parameter (none models cv2.imread returning None, which raises ValueError,
line 207); the final cv2.imwrite is modelled by returning the written path
and image.  An empty detection result returns the output path with nothing
written (lines 221-223). -/
def blur_text_in_image (ocr : Raster → String → Option (List RawWordHit))
    (gaussianBlur : ℤ → Raster → Raster) (ops : ImageOps Raster)
    (imread : List Char → Option Raster) (imagePath : List Char)
    (textToBlur : List (List Char)) (outputPath : Option (List Char))
    (preprocessingMode : String) (minConfidence : ℤ) (blurStrength : ℤ) :
    Except (List Char) PipelineResult :=
  let bs := normalizeBlurStrength blurStrength
  let outPath := outputPath.getD (defaultOutputPath imagePath)
  match imread imagePath with
  | none => Except.error (("Could not read image at ".toList) ++ imagePath)
  | some image =>
    let regions := detect_text_regions ocr (preprocess_image ops image preprocessingMode)
      textToBlur minConfidence
    if regions = [] then Except.ok ⟨outPath, none⟩
    else Except.ok ⟨outPath, some (outPath, apply_blur gaussianBlur image regions bs)⟩

/-! Concrete instantiations of the external collaborators, used to evaluate
the development on closed inputs. -/

/-- A trivial stand-in for the external Gaussian blur primitive. -/
def idBlur : ℤ → Raster → Raster := fun _ img => img

/-- A concrete 4 × 4 test raster. -/
def raster4 : Raster := ⟨4, 4, fun r c => r * 10 + c⟩

/-- Trivial image-processing primitives. -/
def opsId : ImageOps Raster := ⟨id, id, id, id, id, id⟩

/-- An OCR engine stub recognizing nothing. -/
def ocrEmpty : Raster → String → Option (List RawWordHit) := fun _ _ => some []

/-- An OCR engine stub returning one fixed hit on any input. -/
def ocrOneHit : ℕ → String → Option (List RawWordHit) :=
  fun _ _ => some [⟨"hi".toList, 90, 10, 10, 20, 10⟩]

/-! Helper lemmas. -/

theorem nodup_append_single {α : Type _} (l : List α) (a : α) (hl : l.Nodup) (ha : a ∉ l) :
    (l ++ [a]).Nodup := by
  induction l with
  | nil => simp
  | cons c t ih =>
    rw [List.cons_append, List.nodup_cons]
    rcases List.nodup_cons.mp hl with ⟨hct, htd⟩
    refine ⟨?_, ih htd (fun hm => ha (List.mem_cons_of_mem c hm))⟩
    intro hmem
    rcases List.mem_append.mp hmem with hm | hm
    · exact hct hm
    · rcases List.mem_singleton.mp hm with rfl
      exact ha (List.mem_cons_self c t)

theorem foldl_preserve {α β : Type _} (P : β → Prop) (f : β → α → β) :
    ∀ (l : List α) (s : β), (∀ s x, x ∈ l → P s → P (f s x)) → P s → P (l.foldl f s) := by
  intro l
  induction l with
  | nil => intro s _ hs; exact hs
  | cons a l ih =>
    intro s h hs
    exact ih (f s a) (fun s x hx => h s x (List.mem_cons_of_mem a hx))
      (h s a (List.mem_cons_self a l) hs)

theorem sweepConfigStep_trace_length {Img : Type _}
    (ocr : Img → String → Option (List RawWordHit)) (text : List Char) (minConf : ℤ)
    (img : Img) (st : List Box × List (Img × String)) (config : String) :
    ((sweepConfigStep ocr text minConf img st config).2).length = st.2.length + 1 := by
  unfold sweepConfigStep
  cases ocr img config <;> simp

theorem configsFold_trace_length {Img : Type _}
    (ocr : Img → String → Option (List RawWordHit)) (text : List Char) (minConf : ℤ)
    (img : Img) :
    ∀ (cs : List String) (st : List Box × List (Img × String)),
      ((cs.foldl (sweepConfigStep ocr text minConf img) st).2).length =
        st.2.length + cs.length := by
  intro cs
  induction cs with
  | nil => intro st; simp
  | cons c cs ih =>
    intro st
    rw [List.foldl_cons, ih, sweepConfigStep_trace_length, List.length_cons]
    omega

theorem sweepVariantStep_trace_length {Img : Type _}
    (ocr : Img → String → Option (List RawWordHit)) (text : List Char) (minConf : ℤ)
    (st : List Box × List (Img × String)) (img : Img) :
    ((sweepVariantStep ocr text minConf st img).2).length = st.2.length + 4 := by
  unfold sweepVariantStep
  rw [configsFold_trace_length]
  rfl

theorem variantsFold_trace_length {Img : Type _}
    (ocr : Img → String → Option (List RawWordHit)) (text : List Char) (minConf : ℤ) :
    ∀ (vs : List Img) (st : List Box × List (Img × String)),
      ((vs.foldl (sweepVariantStep ocr text minConf) st).2).length =
        st.2.length + vs.length * 4 := by
  intro vs
  induction vs with
  | nil => intro st; simp
  | cons v vs ih =>
    intro st
    rw [List.foldl_cons, ih, sweepVariantStep_trace_length, List.length_cons]
    ring

theorem sweepPhrase_trace_length {Img : Type _}
    (ocr : Img → String → Option (List RawWordHit)) (variants : List Img)
    (text : List Char) (minConf : ℤ) (trace : List (Img × String)) :
    ((sweepPhrase ocr variants text minConf trace).2).length =
      trace.length + variants.length * 4 := by
  unfold sweepPhrase
  rw [variantsFold_trace_length]

theorem detectFold_trace_length {Img : Type _}
    (ocr : Img → String → Option (List RawWordHit)) (variants : List Img) (minConf : ℤ) :
    ∀ (ts : List (List Char)) (st : List (List Char × List Box) × List (Img × String)),
      ((ts.foldl (detectStep ocr variants minConf) st).2).length =
        st.2.length + ts.length * (variants.length * 4) := by
  intro ts
  induction ts with
  | nil => intro st; simp
  | cons t ts ih =>
    intro st
    rw [List.foldl_cons, ih]
    have h2 : ((detectStep ocr variants minConf st t).2).length =
        st.2.length + variants.length * 4 := by
      show ((sweepPhrase ocr variants t minConf st.2).2).length = _
      rw [sweepPhrase_trace_length]
    rw [h2, List.length_cons]
    ring

/-! Claims about the OCR sweep driver. -/

/-- Claim C1, counterexample: with 2 phrases and 2 preprocessed variants
the OCR engine is invoked 16 times, not the claimed |variants| × 4 = 8 —
the phrase loop encloses the variant and config loops, so the raw results
are re-collected for every phrase rather than shared. -/
theorem ocrInvocations_not_phrase_independent :
    (ocrInvocations (fun (_ : ℕ) (_ : String) => some []) [0, 1]
      [['a'], ['b']] 60).length ≠ 2 * 4 := by decide

/-- Claim C1 (amended): for a run with P target phrases and V preprocessed
variants and the four fixed OCR configurations, the external OCR engine is
invoked exactly P × V × 4 times; each phrase triggers its own V × 4
invocations, so the raw word hits are collected anew per phrase rather
than shared across phrases. -/
theorem ocrInvocations_count {Img : Type _}
    (ocr : Img → String → Option (List RawWordHit)) (variants : List Img)
    (textToFind : List (List Char)) (minConf : ℤ) :
    (ocrInvocations ocr variants textToFind minConf).length =
      textToFind.length * (variants.length * 4) := by
  unfold ocrInvocations detectT
  rw [detectFold_trace_length]
  simp

/-- Claim C2, counterexample: for the word at position 0 in the word
sequence zz aa bb cc and the phrase aa bb cc, a window of 3 neighboring
words on each side (as the specification states) matches, but the code's
sliding-window rule, which tries window sizes 0 through 2 only, does not. -/
theorem slidingWindowMatch_window3_differs :
    slidingWindowMatch ("aa bb cc".toList)
        [ "zz".toList, "aa".toList, "bb".toList, "cc".toList ] 0 = false ∧
      slidingWindowMatchSpec ("aa bb cc".toList)
        [ "zz".toList, "aa".toList, "bb".toList, "cc".toList ] 0 = true := by decide

/-- Claim C2 (amended): matching rule (d) holds exactly when the
lower-cased phrase is a substring of the single-space join of a sliding
window of up to 2 neighboring words on each side of position i — window
sizes 0 through 2 inclusive, any one sufficing. -/
theorem slidingWindowMatch_iff (textLower : List Char) (words : List (List Char)) (i : ℕ) :
    slidingWindowMatch textLower words i = true ↔
      ∃ j ≤ 2, containsSub textLower
        (lowerStr (List.intercalate [' '] (pySlice words (i - j) (i + j + 1)))) = true := by
  simp only [slidingWindowMatch, List.any_eq_true, List.mem_range, Nat.lt_succ_iff]

/-! Claims about padding and aggregation. -/

/-- Claim C3, counterexample: for the raw box (0, 0, 10, 2) one application
of the padding-and-clipping step gives (0, 0, 12, 4), while a second
application recomputes the pad from the already padded height and enlarges
the box again to (0, 0, 16, 8). -/
theorem padBox_not_idempotent :
    padBox (padBox ⟨0, 0, 10, 2⟩) ≠ padBox ⟨0, 0, 10, 2⟩ := by decide

/-- Claim C3 (amended): the padding-and-clipping step applied twice agrees
with one application exactly when the raw box's height is at most 1 (so
the pad is zero); for any height of at least 2 the second application
strictly enlarges the box. -/
theorem padBox_idempotent_iff (b : Box) :
    padBox (padBox b) = padBox b ↔ b.h ≤ 1 := by
  obtain ⟨x, y, w, h⟩ := b
  simp only [padBox, Box.mk.injEq]
  constructor
  · rintro ⟨-, -, hw, -⟩
    omega
  · intro h1
    have h0 : h / 2 = 0 := by omega
    refine ⟨by simp [h0], by simp [h0], by simp [h0], by simp [h0]⟩

/-- Claim C4: a raw word hit with whitespace-only (or empty) recognized
text, or with confidence strictly below min_confidence, never contributes
a region: the per-word loop body leaves the accumulated box list of any
phrase unchanged at that hit, whatever the word sequence and accumulator —
and hence whatever preprocessing mode produced the invocation. -/
theorem stepHit_skips (text : List Char) (words : List (List Char)) (minConf : ℤ)
    (acc : List Box) (i : ℕ) (hit : RawWordHit)
    (h : hit.word.all Char.isWhitespace = true ∨ hit.conf < minConf) :
    stepHit text words minConf acc (i, hit) = acc := by
  unfold stepHit
  rcases h with h | h
  · simp [h]
  · by_cases hws : hit.word.all Char.isWhitespace
    · simp [hws]
    · simp [hws, h]

/-- Claim C4, witness at a concrete low-confidence hit. -/
theorem stepHit_skips_witness :
    stepHit ['a'] [['a']] 60 [] (0, ⟨['a'], 10, 0, 0, 5, 5⟩) = [] :=
  stepHit_skips ['a'] [['a']] 60 [] 0 ⟨['a'], 10, 0, 0, 5, 5⟩ (Or.inr (by decide))

/-! Claim about blur-strength normalization. -/

/-- Claim C7: for every integer blur_strength, the effective kernel size
used by blur_text_in_image is odd and at least the input; it is the input
plus one when the input is even, and the input itself otherwise.  The
normalization is a plain assignment, never an error. -/
theorem normalizeBlurStrength_spec (b : ℤ) :
    Odd (normalizeBlurStrength b) ∧ b ≤ normalizeBlurStrength b ∧
      (Even b → normalizeBlurStrength b = b + 1) ∧
      (Odd b → normalizeBlurStrength b = b) := by
  unfold normalizeBlurStrength
  by_cases h : b % 2 = 0
  · rw [if_pos h]
    refine ⟨Int.odd_iff.mpr (by omega), by omega, fun _ => rfl, fun hodd => ?_⟩
    exact absurd hodd (Int.not_odd_iff_even.mpr (Int.even_iff.mpr h))
  · rw [if_neg h]
    refine ⟨Int.odd_iff.mpr (by omega), le_refl b, fun heven => ?_, fun _ => rfl⟩
    exact absurd (Int.even_iff.mp heven) h

/-- Claim C7, witness: the even input 50 becomes 51. -/
theorem normalizeBlurStrength_spec_witness : normalizeBlurStrength 50 = 50 + 1 :=
  (normalizeBlurStrength_spec 50).2.2.1 ⟨25, by norm_num⟩

/-! Deduplication invariant (claim C5). -/

theorem stepHit_nodup (text : List Char) (words : List (List Char)) (minConf : ℤ)
    (acc : List Box) (iw : ℕ × RawWordHit) (h : acc.Nodup) :
    (stepHit text words minConf acc iw).Nodup := by
  unfold stepHit
  split
  · exact h
  · split
    · exact h
    · split
      · show (if padBox ⟨iw.2.left, iw.2.top, iw.2.width, iw.2.height⟩ ∈ acc then acc
            else acc ++ [padBox ⟨iw.2.left, iw.2.top, iw.2.width, iw.2.height⟩]).Nodup
        split
        · exact h
        · exact nodup_append_single _ _ h (by assumption)
      · exact h

theorem processInvocation_nodup (text : List Char) (minConf : ℤ)
    (hits : List RawWordHit) (acc : List Box) (h : acc.Nodup) :
    (processInvocation text minConf hits acc).Nodup := by
  unfold processInvocation
  exact foldl_preserve List.Nodup _ _ acc
    (fun s x _ hs => stepHit_nodup text (hits.map RawWordHit.word) minConf s x hs) h

theorem sweepConfigStep_nodup {Img : Type _} (ocr : Img → String → Option (List RawWordHit))
    (text : List Char) (minConf : ℤ) (img : Img) (st : List Box × List (Img × String))
    (config : String) (h : st.1.Nodup) :
    ((sweepConfigStep ocr text minConf img st config).1).Nodup := by
  unfold sweepConfigStep
  cases ocr img config
  · exact h
  · exact processInvocation_nodup _ _ _ _ h

theorem sweepPhrase_nodup {Img : Type _} (ocr : Img → String → Option (List RawWordHit))
    (variants : List Img) (text : List Char) (minConf : ℤ) (trace : List (Img × String)) :
    ((sweepPhrase ocr variants text minConf trace).1).Nodup := by
  unfold sweepPhrase
  refine foldl_preserve (fun st : List Box × List (Img × String) => st.1.Nodup)
    (sweepVariantStep ocr text minConf) variants ([], trace) ?_ (by simp)
  intro s img _ hs
  unfold sweepVariantStep
  exact foldl_preserve (fun st => st.1.Nodup) _ configs s
    (fun s2 c _ hs2 => sweepConfigStep_nodup ocr text minConf img s2 c hs2) hs

theorem detectStep_nodup_pres {Img : Type _} (ocr : Img → String → Option (List RawWordHit))
    (variants : List Img) (minConf : ℤ)
    (st : List (List Char × List Box) × List (Img × String)) (text : List Char)
    (h : ∀ pr ∈ st.1, (pr.2 : List Box).Nodup) :
    ∀ pr ∈ ((detectStep ocr variants minConf st text).1), (pr.2 : List Box).Nodup := by
  intro pr hpr
  unfold detectStep at hpr
  dsimp only at hpr
  split at hpr
  · exact h pr hpr
  · rcases List.mem_append.mp hpr with hm | hm
    · exact h pr hm
    · rcases List.mem_singleton.mp hm with rfl
      exact sweepPhrase_nodup ocr variants text minConf st.2

/-- Claim C5: in the detection result, no phrase's region list contains two
identical boxes — a box already recorded for a phrase is never added again. -/
theorem detect_text_regions_nodup {Img : Type _}
    (ocr : Img → String → Option (List RawWordHit)) (variants : List Img)
    (textToFind : List (List Char)) (minConf : ℤ)
    (pr : List Char × List Box)
    (hpr : pr ∈ detect_text_regions ocr variants textToFind minConf) :
    (pr.2 : List Box).Nodup := by
  unfold detect_text_regions detectT at hpr
  exact foldl_preserve (fun st => ∀ q ∈ st.1, (q.2 : List Box).Nodup) _ textToFind ([], [])
    (fun s x _ hs => detectStep_nodup_pres ocr variants minConf s x hs) (by simp) pr hpr

/-- Claim C5, witness: a concrete run whose single hit is matched by all
four configurations yet recorded exactly once. -/
theorem detect_text_regions_nodup_witness :
    ((("hi".toList : List Char), [Box.mk 5 5 30 20]).2 : List Box).Nodup :=
  detect_text_regions_nodup ocrOneHit [0] [ "hi".toList ] 60
    ("hi".toList, [Box.mk 5 5 30 20]) (by decide)

/-! Bounds of the blur-apply stage (claims C6, C8, C10). -/

/-- Claim C6: whenever a region is actually blurred (its clipped extent is
non-degenerate), the blurred pixel rectangle lies within the image bounds
after the blur-apply stage's clipping: its right edge is at most cols, its
bottom edge at most rows, and every pixel the stage modifies lies inside
that clipped rectangle (x and y are non-negative by construction). -/
theorem blurRegion_bounds (gaussianBlur : ℤ → Raster → Raster) (blurStrength : ℤ)
    (rows cols : ℕ) (output : Raster) (b : Box)
    (hy : b.y < min (b.y + b.h) rows) (hx : b.x < min (b.x + b.w) cols) :
    (b.x + (min (b.x + b.w) cols - b.x) ≤ cols ∧
        b.y + (min (b.y + b.h) rows - b.y) ≤ rows) ∧
      ∀ r c, (blurRegion gaussianBlur blurStrength rows cols output b).pix r c ≠
          output.pix r c →
        b.y ≤ r ∧ r < min (b.y + b.h) rows ∧ b.x ≤ c ∧ c < min (b.x + b.w) cols := by
  refine ⟨⟨by omega, by omega⟩, ?_⟩
  intro r c hne
  simp only [blurRegion] at hne
  rw [if_pos ⟨hy, hx⟩] at hne
  rw [if_pos (Nat.mul_ne_zero (by omega) (by omega))] at hne
  dsimp only at hne
  by_cases hP : b.y ≤ r ∧ r < min (b.y + b.h) rows ∧ b.x ≤ c ∧ c < min (b.x + b.w) cols
  · exact hP
  · rw [if_neg hP] at hne
    exact absurd rfl hne

/-- Claim C6, witness: box (1, 1, 2, 2) on the 4 × 4 raster. -/
theorem blurRegion_bounds_witness : 1 + (min (1 + 2) 4 - 1) ≤ 4 :=
  (blurRegion_bounds idBlur 51 4 4 raster4 ⟨1, 1, 2, 2⟩ (by decide) (by decide)).1.1

theorem blurRegion_pix_outside (gaussianBlur : ℤ → Raster → Raster) (blurStrength : ℤ)
    (rows cols : ℕ) (out : Raster) (b : Box) (r c : ℕ)
    (h : ¬ inBlurRect rows cols b r c) :
    (blurRegion gaussianBlur blurStrength rows cols out b).pix r c = out.pix r c := by
  unfold inBlurRect at h
  simp only [blurRegion]
  split
  · split
    · dsimp only
      rw [if_neg h]
    · rfl
  · rfl

theorem boxesFold_pix_outside (gaussianBlur : ℤ → Raster → Raster) (blurStrength : ℤ)
    (rows cols r c : ℕ) :
    ∀ (boxes : List Box) (out : Raster), (∀ b ∈ boxes, ¬ inBlurRect rows cols b r c) →
      ((boxes.foldl (blurRegion gaussianBlur blurStrength rows cols) out).pix r c) =
        out.pix r c := by
  intro boxes
  induction boxes with
  | nil => intro out _; rfl
  | cons b bx ih =>
    intro out h
    rw [List.foldl_cons, ih _ (fun q hq => h q (List.mem_cons_of_mem b hq)),
      blurRegion_pix_outside _ _ _ _ _ _ _ _ (h b (List.mem_cons_self b bx))]

theorem regionsFold_pix_outside (gaussianBlur : ℤ → Raster → Raster) (blurStrength : ℤ)
    (rows cols r c : ℕ) :
    ∀ (rs : List (List Char × List Box)) (out : Raster),
      (∀ pr ∈ rs, ∀ b ∈ pr.2, ¬ inBlurRect rows cols b r c) →
      ((rs.foldl
          (fun output tb => tb.2.foldl (blurRegion gaussianBlur blurStrength rows cols) output)
          out).pix r c) = out.pix r c := by
  intro rs
  induction rs with
  | nil => intro out _; rfl
  | cons p ps ih =>
    intro out h
    rw [List.foldl_cons, ih _ (fun q hq b hb => h q (List.mem_cons_of_mem p hq) b hb),
      boxesFold_pix_outside _ _ _ _ _ _ _ _ (fun b hb => h p (List.mem_cons_self p ps) b hb)]

/-- Claim C8: apply_blur works on a copy of its input — the input raster
value is untouched in this functional rendering of image.copy() — and
every pixel outside the clipped regions of the output equals the
corresponding input pixel. -/
theorem apply_blur_frame (gaussianBlur : ℤ → Raster → Raster) (image : Raster)
    (regions : List (List Char × List Box)) (blurStrength : ℤ) (r c : ℕ)
    (h : ∀ pr ∈ regions, ∀ b ∈ pr.2, ¬ inBlurRect image.rows image.cols b r c) :
    (apply_blur gaussianBlur image regions blurStrength).pix r c = image.pix r c := by
  unfold apply_blur
  exact regionsFold_pix_outside gaussianBlur blurStrength image.rows image.cols r c
    regions image h

/-- Claim C8, witness: pixel (3, 3) outside the single region (0, 0, 1, 1). -/
theorem apply_blur_frame_witness :
    (apply_blur idBlur raster4 [(['a'], [Box.mk 0 0 1 1])] 51).pix 3 3 = raster4.pix 3 3 :=
  apply_blur_frame idBlur raster4 [(['a'], [Box.mk 0 0 1 1])] 51 3 3 (by decide)

/-- Claim C10: a region box whose clipped extent is empty — x at or beyond
the image width, y at or beyond the image height, or zero clipped width or
height — is skipped by the blur-apply stage: the image is returned
unchanged, with no pixel modified, for arbitrary such boxes (the operation
is total over all boxes by construction). -/
theorem blurRegion_empty_skip (gaussianBlur : ℤ → Raster → Raster) (blurStrength : ℤ)
    (rows cols : ℕ) (out : Raster) (b : Box)
    (h : cols ≤ b.x ∨ rows ≤ b.y ∨
      min (b.x + b.w) cols - b.x = 0 ∨ min (b.y + b.h) rows - b.y = 0) :
    blurRegion gaussianBlur blurStrength rows cols out b = out := by
  have hguard : ¬ (b.y < min (b.y + b.h) rows ∧ b.x < min (b.x + b.w) cols) := by omega
  simp only [blurRegion]
  rw [if_neg hguard]

/-- Claim C10, witness: the box (9, 0, 2, 2) lies beyond the width of the
4 × 4 raster and is skipped. -/
theorem blurRegion_empty_skip_witness :
    blurRegion idBlur 51 4 4 raster4 ⟨9, 0, 2, 2⟩ = raster4 :=
  blurRegion_empty_skip idBlur 51 4 4 raster4 ⟨9, 0, 2, 2⟩ (Or.inl (by norm_num))

/-! The top-level pipeline (claim C9). -/

/-- Claim C9: when detection finds no match for any phrase, the top-level
operation is not an error: it writes nothing and still returns the given
or derived output path. -/
theorem blur_text_in_image_no_match (ocr : Raster → String → Option (List RawWordHit))
    (gaussianBlur : ℤ → Raster → Raster) (ops : ImageOps Raster)
    (imread : List Char → Option Raster) (imagePath : List Char)
    (textToBlur : List (List Char)) (outputPath : Option (List Char))
    (preprocessingMode : String) (minConfidence : ℤ) (blurStrength : ℤ) (image : Raster)
    (hread : imread imagePath = some image)
    (hdet : detect_text_regions ocr (preprocess_image ops image preprocessingMode)
      textToBlur minConfidence = []) :
    blur_text_in_image ocr gaussianBlur ops imread imagePath textToBlur outputPath
        preprocessingMode minConfidence blurStrength =
      Except.ok ⟨outputPath.getD (defaultOutputPath imagePath), none⟩ := by
  unfold blur_text_in_image
  rw [hread]
  simp [hdet]

/-- Claim C9, witness: an engine that recognizes nothing leads to an ok
result carrying the derived output path and no write. -/
theorem blur_text_in_image_no_match_witness :
    blur_text_in_image ocrEmpty idBlur opsId (fun _ => some raster4) ("a.png".toList)
        [ "hi".toList ] none ("default") 60 51 =
      Except.ok ⟨(none : Option (List Char)).getD (defaultOutputPath ("a.png".toList)), none⟩ :=
  blur_text_in_image_no_match ocrEmpty idBlur opsId (fun _ => some raster4) ("a.png".toList)
    [ "hi".toList ] none ("default") 60 51 raster4 rfl (by decide)

end TextBlur
